import Mathlib

/-!
Verification of the docker-save tar archive writer
(`docker/internal/tarfile/writer.go`).

The Go source is shallowly embedded: the tar stream is a list of records
(headers and payloads), Go maps are association lists with overwrite-on-insert,
`digest.Digest` values are strings, and the canonical hash used by
`digest.Canonical.FromString` (an external library primitive, SHA-256) is a
parameter `sha : String → String` giving the hex encoding of the hash of a
string.  Fallible Go functions return `Except GoError`.
-/

/-- Go `error` values, modelled by their message string. -/
abbrev GoError := String

/-- `errors.Wrap(err, msg)` from github.com/pkg/errors: message `msg: err`. -/
def goWrap (msg : String) (e : GoError) : GoError := msg ++ ": " ++ e

/-- Association-list model of a Go map lookup `m[k]` (with `ok` as `Option`). -/
def goMapLookup {V : Type} (m : List (String × V)) (k : String) : Option V :=
  match m with
  | [] => none
  | (k', v') :: rest => if k' = k then some v' else goMapLookup rest k

/-- Association-list model of a Go map assignment `m[k] = v`:
overwrites the entry for `k` if present, otherwise appends it. -/
def goMapInsert {V : Type} (m : List (String × V)) (k : String) (v : V) :
    List (String × V) :=
  match m with
  | [] => [(k, v)]
  | (k', v') :: rest =>
      if k' = k then (k, v) :: rest else (k', v') :: goMapInsert rest k v

/-- `digest.Digest.Hex()` (go-digest): the part of the digest string after the
first `:` separator, as a character-list recursion. -/
def hexAfterColon : List Char → List Char
  | [] => []
  | c :: cs => if c = ':' then cs else hexAfterColon cs

/-- `digest.Digest.Hex()` on a digest string such as `sha256:abcd...`. -/
def digestHex (d : String) : String := ⟨hexAfterColon d.data⟩

/-- `digest.Canonical.FromString(s)` (go-digest): the canonical (SHA-256)
digest of the string `s`, rendered as `sha256:<hex>`.  The hash itself is the
parameter `sha`. -/
def canonicalFromString (sha : String → String) (s : String) : String :=
  "sha256:" ++ sha s

/-- `filepath.Join` for the non-empty, already-clean single path segments used
by this writer (no cleaning step is ever exercised on these inputs). -/
def joinP (a b : String) : String := a ++ "/" ++ b

/-- Modelled from the spec: the legacy per-layer blob symlink name
`layer.tar` (constant `legacyLayerFileName`, declared outside src/). -/
def legacyLayerFileName : String := "layer.tar"

/-- Modelled from the spec: the legacy per-layer version marker name
`VERSION` (constant `legacyVersionFileName`, declared outside src/). -/
def legacyVersionFileName : String := "VERSION"

/-- Modelled from the spec: the legacy per-layer config name `json`
(constant `legacyConfigFileName`, declared outside src/). -/
def legacyConfigFileName : String := "json"

/-- Modelled from the spec: the top-level legacy tag index path
`repositories` (constant `legacyRepositoriesFileName`, declared outside src/). -/
def legacyRepositoriesFileName : String := "repositories"

/-- Modelled from the spec: the top-level modern manifest path
`manifest.json` (constant `manifestFileName`, declared outside src/). -/
def manifestFileName : String := "manifest.json"

/-- `types.BlobInfo` restricted to the fields this writer reads and writes. -/
structure BlobInfo where
  digest : String
  size : Int
deriving DecidableEq, Repr

/-- The Go zero value `types.BlobInfo{}`. -/
def BlobInfo.empty : BlobInfo := { digest := "", size := 0 }

/-- `manifest.Schema2Descriptor` (only `Digest` is read by the writer). -/
structure Schema2Descriptor where
  mediaType : String
  size : Int
  digest : String
deriving DecidableEq, Repr

/-- Models the external `reference.NamedTagged` interface: `Name()` and
`Tag()`. -/
structure NamedTagged where
  name : String
  tag : String
deriving DecidableEq, Repr

/-- A JSON value as stored in the Go `map[string]interface{}` layer config:
a string, a raw (`*json.RawMessage`) fragment copied verbatim, or the nil
pointer obtained by indexing a missing key (marshalled as `null`). -/
inductive JVal where
  | str (s : String)
  | raw (s : String)
  | null
deriving DecidableEq, Repr

/-- The parsed form of an image configuration: `json.Unmarshal(configBytes,
&config)` into `map[string]*json.RawMessage`.  `none` models configuration
bytes that fail to unmarshal; `some m` models bytes parsing to field map `m`
(attribute name to raw JSON fragment). -/
abbrev ConfigBytes := Option (List (String × String))

/-- `ManifestItem` (declared outside src/; modelled from the spec:
config path, RepoTags, Layers, Parent, LayerSources). -/
structure ManifestItem where
  config : String
  repoTags : List String
  layers : List String
  parent : String
  layerSources : Option (List (String × BlobInfo))
deriving DecidableEq, Repr

/-- Byte strings sent into the tar stream.  Raw literals are kept verbatim;
the results of `json.Marshal` on the structured values the writer builds are
kept structurally (serialization is injective on these shapes). -/
inductive GoBytes where
  | raw (s : String)
  | jsonObj (kvs : List (String × JVal))
  | jsonRepos (m : List (String × List (String × String)))
  | jsonManifestItems (items : List ManifestItem)
deriving DecidableEq, Repr

/-- A rendering of `JVal` used to account for marshalled byte counts. -/
def renderJVal : JVal → String
  | .str s => "\"" ++ s ++ "\""
  | .raw s => s
  | .null => "null"

/-- A rendering of a JSON object body used to account for byte counts. -/
def renderObjBody (kvs : List (String × JVal)) : String :=
  String.intercalate "," (kvs.map fun kv => "\"" ++ kv.1 ++ "\":" ++ renderJVal kv.2)

/-- A rendering of a `ManifestItem` used to account for byte counts. -/
def renderItem (it : ManifestItem) : String :=
  renderObjBody
    [("Config", .str it.config), ("RepoTags", .raw (String.intercalate "," it.repoTags)),
     ("Layers", .raw (String.intercalate "," it.layers)), ("Parent", .str it.parent)]

/-- Serialized byte content of a `GoBytes` value (a definite, simplified
rendering of what `json.Marshal` produces; only its length feeds the model,
as the size recorded in tar headers). -/
def renderGoBytes : GoBytes → String
  | .raw s => s
  | .jsonObj kvs => "\x7b" ++ renderObjBody kvs ++ "\x7d"
  | .jsonRepos m =>
      "\x7b" ++
        String.intercalate ","
          (m.map fun nm =>
            "\"" ++ nm.1 ++ "\":\x7b" ++
              String.intercalate ","
                (nm.2.map fun tv => "\"" ++ tv.1 ++ "\":\"" ++ tv.2 ++ "\"") ++
              "\x7d") ++
        "\x7d"
  | .jsonManifestItems items =>
      "[" ++ String.intercalate "," (items.map fun it => "\x7b" ++ renderItem it ++ "\x7d") ++ "]"

/-- `int64(len(b))`: the length of a byte string sent to the tar stream. -/
def glen (b : GoBytes) : Int := (renderGoBytes b).length

/-- The synthetic `os.FileInfo` carrier `tarFI`. -/
structure TarFI where
  path : String
  size : Int
  isSymlink : Bool
deriving DecidableEq, Repr

/-- `os.ModeSymlink` (bit 27 of `os.FileMode`), as a literal. -/
def modeSymlink : Nat := 134217728

/-- `os.ModeType`: the file-type bit mask of `os.FileMode` (dir, symlink,
device, named pipe, socket, char device, irregular), as a literal. -/
def modeTypeMask : Nat := 2401763328

/-- `tarFI.Mode()`: `os.ModeSymlink` for symlinks, `0444` otherwise. -/
def TarFI.mode (t : TarFI) : Nat := cond t.isSymlink modeSymlink 0o444

/-- `tarFI.ModTime()`: `time.Unix(0, 0)`, as seconds since the epoch. -/
def TarFI.modTimeSec (_ : TarFI) : Int := 0

/-- Tar entry type flags (`tar.TypeReg` / `tar.TypeSymlink`). -/
inductive TypeFlag where
  | reg
  | symlink
deriving DecidableEq, Repr

/-- `tar.Header`, restricted to the fields this writer populates. -/
structure TarHeader where
  name : String
  modTimeSec : Int
  mode : Nat
  typeflag : TypeFlag
  size : Int
  linkname : String
deriving DecidableEq, Repr

/-- `tar.FileInfoHeader` (archive/tar) restricted to the `os.FileInfo`
implementations this writer constructs (`tarFI`): `Mode` takes the permission
bits, regular files take `Size` from the file info, symlinks take `Linkname`;
any other mode type is the library's error case (never reached by `tarFI`). -/
def goFileInfoHeader (fi : TarFI) (link : String) : Except GoError TarHeader :=
  let fm := fi.mode
  if fm &&& modeTypeMask = 0 then
    .ok { name := fi.path, modTimeSec := fi.modTimeSec, mode := fm &&& 0o777,
          typeflag := .reg, size := fi.size, linkname := "" }
  else if fm &&& modeSymlink ≠ 0 then
    .ok { name := fi.path, modTimeSec := fi.modTimeSec, mode := fm &&& 0o777,
          typeflag := .symlink, size := 0, linkname := link }
  else .error "archive/tar: unknown file mode"

/-- The header `tar.FileInfoHeader` produces for a regular `tarFI`. -/
def mkRegHeader (path : String) (size : Int) : TarHeader :=
  { name := path, modTimeSec := 0, mode := 0o444, typeflag := .reg,
    size := size, linkname := "" }

/-- The header `tar.FileInfoHeader` produces for a symlink `tarFI`. -/
def mkSymHeader (path target : String) : TarHeader :=
  { name := path, modTimeSec := 0, mode := 0, typeflag := .symlink,
    size := 0, linkname := target }

/-- One record appended to the tar stream: a header or an entry payload. -/
inductive TarRecord where
  | hdr (h : TarHeader)
  | dat (b : GoBytes)
deriving DecidableEq, Repr

/-- The mutable state of a `Writer`: the tar records written so far and the
`blobs` map of already-sent blobs. -/
structure WriterState where
  entries : List TarRecord
  blobs : List (String × BlobInfo)
deriving DecidableEq, Repr

/-- `Writer.tryReusingBlob`. -/
def tryReusingBlob (w : WriterState) (info : BlobInfo) :
    Except GoError (Bool × BlobInfo) :=
  if info.digest = "" then
    .error "Can not check for a blob with unknown digest"
  else
    match goMapLookup w.blobs info.digest with
    | some blob => .ok (true, { digest := info.digest, size := blob.size })
    | none => .ok (false, BlobInfo.empty)

/-- `Writer.recordBlob`. -/
def recordBlob (w : WriterState) (info : BlobInfo) : WriterState :=
  { w with blobs := goMapInsert w.blobs info.digest info }

/-- `Writer.sendSymlink`, parameterized by the library header constructor
`fih` (`tar.FileInfoHeader`).  On a header-construction error the Go code
returns `nil` having written nothing. -/
def sendSymlink (fih : TarFI → String → Except GoError TarHeader)
    (st : WriterState) (path target : String) : Except GoError WriterState :=
  match fih { path := path, size := 0, isSymlink := true } target with
  | .error _ => .ok st
  | .ok hdr => .ok { st with entries := st.entries ++ [.hdr hdr] }

/-- The "Size mismatch" error of `Writer.sendFile`. -/
def sizeMismatchMsg (path : String) (expected got : Int) : GoError :=
  "Size mismatch when copying " ++ path ++ ", expected " ++ toString expected ++
    ", got " ++ toString got

/-- `Writer.sendFile`, parameterized by the library header constructor `fih`.
The source stream is a pure byte string, so `io.Copy` copies all of it and
reports its length; a length different from `expectedSize` is the "Size
mismatch" error (raised after the bytes went into the stream).  On a
header-construction error the Go code returns `nil` having written nothing. -/
def sendFile (fih : TarFI → String → Except GoError TarHeader)
    (st : WriterState) (path : String) (expectedSize : Int) (stream : GoBytes) :
    Except GoError WriterState :=
  match fih { path := path, size := expectedSize, isSymlink := false } "" with
  | .error _ => .ok st
  | .ok hdr =>
      let st1 : WriterState := { st with entries := st.entries ++ [.hdr hdr] }
      let size := glen stream
      let st2 : WriterState := { st1 with entries := st1.entries ++ [.dat stream] }
      if size ≠ expectedSize then .error (sizeMismatchMsg path expectedSize size)
      else .ok st2

/-- `Writer.sendBytes`: `sendFile(path, int64(len(b)), bytes.NewReader(b))`. -/
def sendBytes (fih : TarFI → String → Except GoError TarHeader)
    (st : WriterState) (path : String) (b : GoBytes) : Except GoError WriterState :=
  sendFile fih st path (glen b) b

/-- `Writer.configPath`. -/
def configPath (configDigest : String) : String := digestHex configDigest ++ ".json"

/-- `Writer.physicalLayerPath`. -/
def physicalLayerPath (layerDigest : String) : String := digestHex layerDigest ++ ".tar"

/-- The seven image-configuration attributes copied into the top layer's
legacy config (`[7]string{...}` in the source). -/
def attrs7 : List String :=
  ["architecture", "config", "container", "container_config", "created",
   "docker_version", "os"]

/-- `layerConfig[attr] = config[attr]`: indexing a `map[string]*json.RawMessage`
yields the raw fragment, or the nil pointer (marshalled `null`) when absent. -/
def rawOf (cfg : List (String × String)) (a : String) : JVal :=
  match goMapLookup cfg a with
  | some r => JVal.raw r
  | none => JVal.null

/-- The chain-ID update of one loop iteration of `writeLegacyLayerMetadata`:
`if chainID == "" { chainID = l.Digest } else { chainID =
digest.Canonical.FromString(chainID.String() + " " + l.Digest.String()) }`. -/
def chainUpd (sha : String → String) (chain d : String) : String :=
  if chain = "" then d else canonicalFromString sha (chain ++ " " ++ d)

/-- The model of `json.Unmarshal`'s error on unparsable configuration bytes. -/
def jsonUnmarshalErr : GoError := "invalid JSON"

/-- The per-layer loop of `Writer.writeLegacyLayerMetadata` (source lines
62–122), recursing on the remaining layer descriptors; `rest.isEmpty` in an
iteration models `i == len(layerDescriptors)-1`. -/
def legacyLoop (sha : String → String)
    (fih : TarFI → String → Except GoError TarHeader)
    (configBytes : ConfigBytes) :
    WriterState → String → String → List String → List Schema2Descriptor →
    Except GoError (WriterState × List String × String)
  | st, _chainID, lastLayerID, layerPaths, [] => .ok (st, layerPaths, lastLayerID)
  | st, chainID, lastLayerID, layerPaths, l :: rest =>
      let chainID' := chainUpd sha chainID l.digest
      let layerID := digestHex chainID'
      let physPath := physicalLayerPath l.digest
      let layerPaths' := layerPaths ++ [physPath]
      match sendSymlink fih st (joinP layerID legacyLayerFileName) (joinP ".." physPath) with
      | .error e => .error (goWrap "Error creating layer symbolic link" e)
      | .ok st1 =>
      match sendBytes fih st1 (joinP layerID legacyVersionFileName) (.raw "1.0") with
      | .error e => .error (goWrap "Error writing VERSION file" e)
      | .ok st2 =>
      let lc0 := goMapInsert [] "id" (JVal.str layerID)
      let lc1 := if lastLayerID ≠ "" then goMapInsert lc0 "parent" (JVal.str lastLayerID) else lc0
      match (if rest.isEmpty then
               match configBytes with
               | none => Except.error (goWrap "Error unmarshaling config" jsonUnmarshalErr)
               | some config =>
                   Except.ok (attrs7.foldl (fun m a => goMapInsert m a (rawOf config a)) lc1)
             else Except.ok lc1) with
      | .error e => .error e
      | .ok layerConfig =>
      match sendBytes fih st2 (joinP layerID legacyConfigFileName) (.jsonObj layerConfig) with
      | .error e => .error (goWrap "Error writing config json file" e)
      | .ok st3 => legacyLoop sha fih configBytes st3 chainID' layerID layerPaths' rest

/-- `Writer.writeLegacyLayerMetadata`: the loop started with empty `chainID`,
empty `lastLayerID` and nil `layerPaths`. -/
def writeLegacyLayerMetadata (sha : String → String)
    (fih : TarFI → String → Except GoError TarHeader)
    (st : WriterState) (layerDescriptors : List Schema2Descriptor)
    (configBytes : ConfigBytes) :
    Except GoError (WriterState × List String × String) :=
  legacyLoop sha fih configBytes st "" "" [] layerDescriptors

/-- One step of the repositories fold: `if val, ok := repositories[name]; ok
{ val[tag] = root } else { repositories[name] = map[string]string{tag: root} }`. -/
def reposInsert (m : List (String × List (String × String)))
    (name tag root : String) : List (String × List (String × String)) :=
  match goMapLookup m name with
  | some inner => goMapInsert m name (goMapInsert inner tag root)
  | none => goMapInsert m name [(tag, root)]

/-- The nested map built by `createRepositoriesFile` from the supplied tags. -/
def reposMap (rootLayerID : String) (repoTags : List NamedTagged) :
    List (String × List (String × String)) :=
  repoTags.foldl (fun m rt => reposInsert m rt.name rt.tag rootLayerID) []

/-- Lookup in the nested repositories map: `m[name][tag]`. -/
def reposLookup (m : List (String × List (String × String)))
    (name tag : String) : Option String :=
  (goMapLookup m name).bind fun inner => goMapLookup inner tag

/-- `Writer.createRepositoriesFile`. -/
def createRepositoriesFile (fih : TarFI → String → Except GoError TarHeader)
    (st : WriterState) (rootLayerID : String) (repoTags : List NamedTagged) :
    Except GoError WriterState :=
  match sendBytes fih st legacyRepositoriesFileName
      (.jsonRepos (reposMap rootLayerID repoTags)) with
  | .error e => .error (goWrap "Error writing config json file" e)
  | .ok st' => .ok st'

/-- `Writer.createManifest`: one `ManifestItem`, repo tags rendered as
`fmt.Sprintf("%s:%s", tag.Name(), tag.Tag())` in input order. -/
def createManifest (fih : TarFI → String → Except GoError TarHeader)
    (st : WriterState) (configDigest : String) (layerPaths : List String)
    (repoTags : List NamedTagged) : Except GoError WriterState :=
  let item : ManifestItem :=
    { config := configPath configDigest
      repoTags := repoTags.map fun tag => tag.name ++ ":" ++ tag.tag
      layers := layerPaths
      parent := ""
      layerSources := none }
  sendBytes fih st manifestFileName (.jsonManifestItems [item])

/-- The loop's `chainID` value before iteration `k` (equivalently, after the
first `k` layers of the digest list `ds` have been processed). -/
def chainPre (sha : String → String) (ds : List String) : Nat → String
  | 0 => ""
  | k + 1 => chainUpd sha (chainPre sha ds k) (ds.getD k "")

/-- The legacy layer ID of layer `i`: the hex of its chain ID. -/
def lidAt (sha : String → String) (ds : List String) (i : Nat) : String :=
  digestHex (chainPre sha ds (i + 1))

/-- The loop's `lastLayerID` value before iteration `k`. -/
def lidPre (sha : String → String) (ds : List String) : Nat → String
  | 0 => ""
  | k + 1 => lidAt sha ds k

/-- The legacy `json` config object built by one loop iteration, as a function
of the layer ID, the incoming `lastLayerID`, and whether this is the top
layer. -/
def lcStep (cfg : List (String × String)) (layerID lastLayerID : String)
    (isLast : Bool) : List (String × JVal) :=
  let lc0 := goMapInsert [] "id" (JVal.str layerID)
  let lc1 := if lastLayerID ≠ "" then
      goMapInsert lc0 "parent" (JVal.str lastLayerID) else lc0
  if isLast then attrs7.foldl (fun m a => goMapInsert m a (rawOf cfg a)) lc1 else lc1

/-- The five tar records emitted by one loop iteration: the `layer.tar`
symlink, the `VERSION` header and payload, and the `json` header and
payload. -/
def blockStep (cfg : List (String × String)) (layerID lastLayerID d : String)
    (isLast : Bool) : List TarRecord :=
  [ .hdr (mkSymHeader (joinP layerID legacyLayerFileName)
      (joinP ".." (physicalLayerPath d))),
    .hdr (mkRegHeader (joinP layerID legacyVersionFileName) (glen (.raw "1.0"))),
    .dat (.raw "1.0"),
    .hdr (mkRegHeader (joinP layerID legacyConfigFileName)
      (glen (.jsonObj (lcStep cfg layerID lastLayerID isLast)))),
    .dat (.jsonObj (lcStep cfg layerID lastLayerID isLast)) ]

/-- The legacy `json` config object emitted for layer `i` of digests `ds`. -/
def lcAt (sha : String → String) (cfg : List (String × String))
    (ds : List String) (i : Nat) : List (String × JVal) :=
  lcStep cfg (lidAt sha ds i) (lidPre sha ds i) (decide (i = ds.length - 1))

/-- The five tar records emitted for layer `i` of digests `ds`. -/
def blockAt (sha : String → String) (cfg : List (String × String))
    (ds : List String) (i : Nat) : List TarRecord :=
  blockStep cfg (lidAt sha ds i) (lidPre sha ds i) (ds.getD i "")
    (decide (i = ds.length - 1))

/-- Modelled from the spec (§4.2): the chain-ID contract stated there —
`chainID(layers[0..0]) = layers[0].digest`, and `chainID(layers[0..i]) =
canonical-hash(previousChainID + " " + layers[i].digest)` for `i > 0`. -/
def chainIDSpec (sha : String → String) (ds : List String) : Nat → String
  | 0 => ds.getD 0 ""
  | i + 1 => canonicalFromString sha (chainIDSpec sha ds i ++ " " ++ ds.getD (i + 1) "")

/-- A concrete two-layer descriptor list used to witness the layer-metadata
theorems. -/
def wDescs : List Schema2Descriptor :=
  [{ mediaType := "mt", size := 1, digest := "sha256:aa" },
   { mediaType := "mt", size := 2, digest := "sha256:bb" }]

/-- A concrete parsed configuration carrying all seven legacy attributes. -/
def wCfg : List (String × String) :=
  [("architecture", "\"amd64\""), ("config", "1"), ("container", "2"),
   ("container_config", "3"), ("created", "4"), ("docker_version", "5"),
   ("os", "\"linux\"")]

/-- A concrete stand-in for the canonical hex hash, used in witnesses. -/
def wSha : String → String := fun _ => "cc"

theorem goMapLookup_insert_self {V : Type} (m : List (String × V)) (k : String) (v : V) :
    goMapLookup (goMapInsert m k v) k = some v := by
  induction m with
  | nil => simp [goMapInsert, goMapLookup]
  | cons hd tl ih =>
      obtain ⟨k', v'⟩ := hd
      by_cases h : k' = k
      · simp [goMapInsert, goMapLookup, h]
      · simp [goMapInsert, goMapLookup, h, ih]

theorem goMapLookup_insert_ne {V : Type} (m : List (String × V)) (k a : String) (v : V)
    (h : a ≠ k) : goMapLookup (goMapInsert m k v) a = goMapLookup m a := by
  induction m with
  | nil => simp [goMapInsert, goMapLookup, Ne.symm h]
  | cons hd tl ih =>
      obtain ⟨k', v'⟩ := hd
      by_cases hk : k' = k
      · have hk'a : ¬ k' = a := by rw [hk]; exact Ne.symm h
        simp [goMapInsert, goMapLookup, hk, hk'a, Ne.symm h]
      · by_cases ha : k' = a
        · simp [goMapInsert, goMapLookup, hk, ha, h]
        · simp [goMapInsert, goMapLookup, hk, ha, ih]

theorem goMapLookup_foldl_not_mem {V : Type} (l : List String) (g : String → V)
    (m : List (String × V)) (a : String) (h : a ∉ l) :
    goMapLookup (l.foldl (fun m x => goMapInsert m x (g x)) m) a = goMapLookup m a := by
  induction l generalizing m with
  | nil => simp
  | cons x xs ih =>
      simp only [List.mem_cons, not_or] at h
      simp only [List.foldl_cons]
      rw [ih _ h.2, goMapLookup_insert_ne _ _ _ _ h.1]

theorem goMapLookup_foldl_mem {V : Type} (l : List String) (g : String → V)
    (m : List (String × V)) (a : String) (h : a ∈ l) (hnd : l.Nodup) :
    goMapLookup (l.foldl (fun m x => goMapInsert m x (g x)) m) a = some (g a) := by
  induction l generalizing m with
  | nil => simp at h
  | cons x xs ih =>
      simp only [List.nodup_cons] at hnd
      rcases List.mem_cons.mp h with h | h
      · subst h
        simp only [List.foldl_cons]
        rw [goMapLookup_foldl_not_mem _ _ _ _ hnd.1, goMapLookup_insert_self]
      · simp only [List.foldl_cons]
        exact ih _ h hnd.2

theorem digestHex_sha256_append (x : String) : digestHex ("sha256:" ++ x) = x := by
  have hdata : ("sha256:" ++ x).data = "sha256:".data ++ x.data := rfl
  simp only [digestHex, hdata]
  show String.mk (hexAfterColon ('s' :: 'h' :: 'a' :: '2' :: '5' :: '6' :: ':' :: x.data)) = x
  simp [hexAfterColon]

theorem sha256_prefixed_ne_empty (x : String) : ("sha256:" ++ x) ≠ "" := by
  intro h
  have := congrArg String.length h
  rw [String.length_append] at this
  have h7 : "sha256:".length = 7 := rfl
  have h0 : "".length = 0 := rfl
  omega

theorem sha256_prefixed_ne_suffix (s t : String) : ("sha256:" ++ (s ++ " " ++ t)) ≠ t := by
  intro h
  have := congrArg String.length h
  simp only [String.length_append] at this
  have h7 : "sha256:".length = 7 := rfl
  have h1 : " ".length = 1 := rfl
  omega

theorem modeSymlink_eq_bit : modeSymlink = 2 ^ 27 := by decide

theorem modeTypeMask_eq_bits :
    modeTypeMask = 2 ^ 31 + 2 ^ 27 + 2 ^ 26 + 2 ^ 25 + 2 ^ 24 + 2 ^ 21 + 2 ^ 19 := by
  decide

theorem goFileInfoHeader_reg (p : String) (sz : Int) (link : String) :
    goFileInfoHeader { path := p, size := sz, isSymlink := false } link
      = .ok (mkRegHeader p sz) := by
  have hm : TarFI.mode { path := p, size := sz, isSymlink := false } = 0o444 := rfl
  have hperm : (0o444 : Nat) &&& 0o777 = 0o444 := by decide
  have htype : (0o444 : Nat) &&& modeTypeMask = 0 := by decide
  simp only [goFileInfoHeader, hm]
  rw [if_pos htype, hperm]
  rfl

theorem goFileInfoHeader_sym (p : String) (sz : Int) (link : String) :
    goFileInfoHeader { path := p, size := sz, isSymlink := true } link
      = .ok (mkSymHeader p link) := by
  have hm : TarFI.mode { path := p, size := sz, isSymlink := true } = modeSymlink := rfl
  have hperm : modeSymlink &&& 0o777 = 0 := by decide
  have htype : ¬ (modeSymlink &&& modeTypeMask = 0) := by decide
  have hsym : modeSymlink &&& modeSymlink ≠ 0 := by decide
  simp only [goFileInfoHeader, hm]
  rw [if_neg htype, if_pos hsym, hperm]
  rfl

theorem sendSymlink_eq_ok (fih : TarFI → String → Except GoError TarHeader)
    (st : WriterState) (p t : String) (h : TarHeader)
    (hfih : fih { path := p, size := 0, isSymlink := true } t = .ok h) :
    sendSymlink fih st p t = .ok { st with entries := st.entries ++ [.hdr h] } := by
  unfold sendSymlink
  rw [hfih]

theorem sendSymlink_go (st : WriterState) (p t : String) :
    sendSymlink goFileInfoHeader st p t
      = .ok { st with entries := st.entries ++ [.hdr (mkSymHeader p t)] } :=
  sendSymlink_eq_ok goFileInfoHeader st p t (mkSymHeader p t) (goFileInfoHeader_sym p 0 t)

theorem sendFile_eq_ok (fih : TarFI → String → Except GoError TarHeader)
    (st : WriterState) (p : String) (es : Int) (b : GoBytes) (h : TarHeader)
    (hfih : fih { path := p, size := es, isSymlink := false } "" = .ok h) :
    sendFile fih st p es b
      = if glen b ≠ es then .error (sizeMismatchMsg p es (glen b))
        else .ok { st with entries := st.entries ++ [.hdr h, .dat b] } := by
  unfold sendFile
  rw [hfih]
  simp [List.append_assoc]

theorem sendFile_go (st : WriterState) (p : String) (es : Int) (b : GoBytes) :
    sendFile goFileInfoHeader st p es b
      = if glen b ≠ es then .error (sizeMismatchMsg p es (glen b))
        else .ok { st with entries := st.entries ++ [.hdr (mkRegHeader p es), .dat b] } :=
  sendFile_eq_ok goFileInfoHeader st p es b (mkRegHeader p es) (goFileInfoHeader_reg p es "")

theorem sendBytes_go (st : WriterState) (p : String) (b : GoBytes) :
    sendBytes goFileInfoHeader st p b
      = .ok { st with entries := st.entries ++ [.hdr (mkRegHeader p (glen b)), .dat b] } := by
  unfold sendBytes
  rw [sendFile_go]
  simp

theorem getD_mem_of_lt (l : List String) (i : Nat) (h : i < l.length) :
    l.getD i "" ∈ l := by
  induction l generalizing i with
  | nil => simp at h
  | cons x xs ih =>
      cases i with
      | zero => simp
      | succ n =>
          simp only [List.getD_cons_succ, List.mem_cons]
          exact Or.inr (ih n (by simpa using h))

theorem chainUpd_ne_empty (sha : String → String) (c d : String) (hd : d ≠ "") :
    chainUpd sha c d ≠ "" := by
  unfold chainUpd
  by_cases h : c = ""
  · simp [h, hd]
  · rw [if_neg h]
    exact sha256_prefixed_ne_empty _

theorem chainPre_one (sha : String → String) (ds : List String) :
    chainPre sha ds 1 = ds.getD 0 "" := by
  simp [chainPre, chainUpd]

theorem chainPre_ne_empty (sha : String → String) (ds : List String)
    (hne : ∀ d ∈ ds, d ≠ "") (i : Nat) (hi : i < ds.length) :
    chainPre sha ds (i + 1) ≠ "" := by
  cases i with
  | zero =>
      rw [chainPre_one]
      exact hne _ (getD_mem_of_lt ds 0 hi)
  | succ n =>
      exact chainUpd_ne_empty sha _ _ (hne _ (getD_mem_of_lt ds (n + 1) hi))

theorem chainPre_succ_hash (sha : String → String) (ds : List String) (i : Nat)
    (h : chainPre sha ds (i + 1) ≠ "") :
    chainPre sha ds (i + 2)
      = canonicalFromString sha (chainPre sha ds (i + 1) ++ " " ++ ds.getD (i + 1) "") := by
  show chainUpd sha (chainPre sha ds (i + 1)) (ds.getD (i + 1) "") = _
  unfold chainUpd
  rw [if_neg h]

theorem chainPre_eq_spec (sha : String → String) (ds : List String)
    (hne : ∀ d ∈ ds, d ≠ "") :
    ∀ i, i < ds.length → chainPre sha ds (i + 1) = chainIDSpec sha ds i := by
  intro i
  induction i with
  | zero =>
      intro _
      rw [chainPre_one]
      rfl
  | succ n ih =>
      intro hi
      have hn : n < ds.length := by omega
      rw [chainPre_succ_hash sha ds n (chainPre_ne_empty sha ds hne n hn), ih hn]
      rfl

theorem lidAt_ne_empty (sha : String → String) (ds : List String)
    (hne : ∀ d ∈ ds, d ≠ "") (hhex : ∀ d ∈ ds, digestHex d ≠ "")
    (hsha : ∀ s, sha s ≠ "") (i : Nat) (hi : i < ds.length) :
    lidAt sha ds i ≠ "" := by
  cases i with
  | zero =>
      unfold lidAt
      rw [chainPre_one]
      exact hhex _ (getD_mem_of_lt ds 0 hi)
  | succ n =>
      unfold lidAt
      rw [chainPre_succ_hash sha ds n (chainPre_ne_empty sha ds hne n (by omega))]
      unfold canonicalFromString
      rw [digestHex_sha256_append]
      exact hsha _

theorem drop_cons_facts (ld : List Schema2Descriptor) :
    ∀ (k : Nat) (l : Schema2Descriptor) (rest : List Schema2Descriptor),
    ld.drop k = l :: rest →
    (ld.map Schema2Descriptor.digest).getD k "" = l.digest
      ∧ ld.drop (k + 1) = rest ∧ k < ld.length := by
  induction ld with
  | nil =>
      intro k l rest h
      simp at h
  | cons x xs ih =>
      intro k l rest h
      cases k with
      | zero =>
          simp only [List.drop_zero] at h
          obtain ⟨h1, h2⟩ := List.cons.injEq .. ▸ h
          subst h1
          subst h2
          refine ⟨rfl, by simp, by simp⟩
      | succ n =>
          have h' : xs.drop n = l :: rest := h
          obtain ⟨a, b, c⟩ := ih n l rest h'
          refine ⟨by simpa using a, by simpa using b, by simp; omega⟩


theorem sendSymlink_fih (fih : TarFI → String → Except GoError TarHeader)
    (hsym : ∀ p t, fih { path := p, size := 0, isSymlink := true } t
      = .ok (mkSymHeader p t)) (st : WriterState) (p t : String) :
    sendSymlink fih st p t
      = .ok { st with entries := st.entries ++ [.hdr (mkSymHeader p t)] } :=
  sendSymlink_eq_ok fih st p t _ (hsym p t)

theorem sendBytes_fih (fih : TarFI → String → Except GoError TarHeader)
    (hreg : ∀ p sz, fih { path := p, size := sz, isSymlink := false } ""
      = .ok (mkRegHeader p sz)) (st : WriterState) (p : String) (b : GoBytes) :
    sendBytes fih st p b
      = .ok { st with entries := st.entries ++ [.hdr (mkRegHeader p (glen b)), .dat b] } := by
  unfold sendBytes
  rw [sendFile_eq_ok fih st p (glen b) b _ (hreg p (glen b))]
  simp

theorem legacyLoop_cons_fih (sha : String → String) (cfg : List (String × String))
    (fih : TarFI → String → Except GoError TarHeader)
    (hsym : ∀ p t, fih { path := p, size := 0, isSymlink := true } t
      = .ok (mkSymHeader p t))
    (hreg : ∀ p sz, fih { path := p, size := sz, isSymlink := false } ""
      = .ok (mkRegHeader p sz))
    (st : WriterState) (chain last : String) (paths : List String)
    (l : Schema2Descriptor) (rest : List Schema2Descriptor) :
    legacyLoop sha fih (some cfg) st chain last paths (l :: rest)
      = legacyLoop sha fih (some cfg)
          { st with entries := st.entries ++
              (blockStep cfg (digestHex (chainUpd sha chain l.digest)) last l.digest
                rest.isEmpty) }
          (chainUpd sha chain l.digest) (digestHex (chainUpd sha chain l.digest))
          (paths ++ [physicalLayerPath l.digest]) rest := by
  simp only [legacyLoop, sendSymlink_fih fih hsym, sendBytes_fih fih hreg]
  cases hb : rest.isEmpty <;>
    simp [hb, blockStep, lcStep, List.append_assoc]

theorem legacyLoop_nil (sha : String → String)
    (fih : TarFI → String → Except GoError TarHeader) (cfgb : ConfigBytes)
    (st : WriterState) (chain last : String) (paths : List String) :
    legacyLoop sha fih cfgb st chain last paths [] = .ok (st, paths, last) := rfl

theorem legacyLoop_char (sha : String → String) (cfg : List (String × String))
    (ld : List Schema2Descriptor) (ds : List String)
    (hds : ds = ld.map Schema2Descriptor.digest)
    (fih : TarFI → String → Except GoError TarHeader)
    (hsym : ∀ p t, fih { path := p, size := 0, isSymlink := true } t
      = .ok (mkSymHeader p t))
    (hreg : ∀ p sz, fih { path := p, size := sz, isSymlink := false } ""
      = .ok (mkRegHeader p sz)) :
    ∀ (rest : List Schema2Descriptor) (k : Nat) (st : WriterState) (paths : List String),
    ld.drop k = rest →
    legacyLoop sha fih (some cfg) st (chainPre sha ds k) (lidPre sha ds k) paths rest
      = .ok ({ st with entries := st.entries ++
                (((List.range rest.length).map fun j => blockAt sha cfg ds (k + j)).flatten) },
             paths ++ rest.map (fun l => physicalLayerPath l.digest),
             if rest.isEmpty then lidPre sha ds k else lidAt sha ds (ld.length - 1)) := by
  intro rest
  induction rest with
  | nil =>
      intro k st paths _hdrop
      rw [legacyLoop_nil]
      simp
  | cons l rest ih =>
      intro k st paths hdrop
      obtain ⟨hget0, hdrop', hk⟩ := drop_cons_facts ld k l rest hdrop
      have hget : ds.getD k "" = l.digest := by rw [hds]; exact hget0
      have hlen : ds.length = ld.length := by rw [hds]; simp
      have hchain : chainUpd sha (chainPre sha ds k) l.digest = chainPre sha ds (k + 1) := by
        rw [← hget]
        rfl
      rw [legacyLoop_cons_fih sha cfg fih hsym hreg, hchain]
      have hlid2 : digestHex (chainPre sha ds (k + 1)) = lidPre sha ds (k + 1) := rfl
      rw [hlid2, ih (k + 1) _ _ hdrop']
      have hlid3 : lidPre sha ds (k + 1) = lidAt sha ds k := rfl
      rw [hlid3]
      have hget2 : ds[k]?.getD "" = l.digest := by
        simpa [List.getD] using hget
      by_cases hre : rest = []
      · subst hre
        have hlast : k = ds.length - 1 := by
          have hle : ld.length ≤ k + 1 := by
            by_contra hcon
            have hne : ld.drop (k + 1) ≠ [] := by
              simp [List.drop_eq_nil_iff]
              omega
            exact hne hdrop'
          omega
        have hget3 : ds[ld.length - 1]?.getD "" = l.digest := by
          rw [← hlen, ← hlast]
          exact hget2
        simp [blockAt, hget, hget2, hget3, hlast, hlen, List.range_succ, List.range_zero, List.append_assoc]
      · have hklt : k + 1 < ld.length := by
          by_contra hcon
          have : ld.drop (k + 1) = [] := by
            rw [List.drop_eq_nil_iff]
            omega
          rw [hdrop'] at this
          exact hre this
        have hkne : ¬ (k = ds.length - 1) := by omega
        have hrene : rest.isEmpty = false := by
          cases rest with
          | nil => exact absurd rfl hre
          | cons a b => rfl
        have harith : ∀ j : Nat, k + 1 + j = k + (j + 1) := by omega
        simp [blockAt, hget, hget2, hkne, hrene, List.range_succ_eq_map, List.map_map,
          Function.comp_def, harith, List.append_assoc]

theorem writeLegacy_run (sha : String → String) (cfg : List (String × String))
    (st : WriterState) (ld : List Schema2Descriptor) :
    writeLegacyLayerMetadata sha goFileInfoHeader st ld (some cfg)
      = .ok ({ st with entries := st.entries ++
                (((List.range ld.length).map fun j =>
                    blockAt sha cfg (ld.map Schema2Descriptor.digest) j).flatten) },
             ld.map (fun l => physicalLayerPath l.digest),
             if ld.isEmpty then ""
             else lidAt sha (ld.map Schema2Descriptor.digest) (ld.length - 1)) := by
  have h := legacyLoop_char sha cfg ld (ld.map Schema2Descriptor.digest) rfl
    goFileInfoHeader (fun p t => goFileInfoHeader_sym p 0 t)
    (fun p sz => goFileInfoHeader_reg p sz "") ld 0 st [] (by simp)
  unfold writeLegacyLayerMetadata
  simpa [chainPre, lidPre] using h

theorem lcStep_id (cfg : List (String × String)) (layerID last : String)
    (isLast : Bool) :
    goMapLookup (lcStep cfg layerID last isLast) "id" = some (.str layerID) := by
  have hid7 : "id" ∉ attrs7 := by decide
  have hpar : ("id" : String) ≠ "parent" := by decide
  cases isLast <;> by_cases h : last ≠ "" <;>
    simp [lcStep, h, goMapLookup_foldl_not_mem _ _ _ _ hid7,
      goMapLookup_insert_ne _ _ _ _ hpar, goMapLookup, goMapInsert]

theorem lcStep_parent_none (cfg : List (String × String)) (layerID : String)
    (isLast : Bool) :
    goMapLookup (lcStep cfg layerID "" isLast) "parent" = none := by
  have hp7 : "parent" ∉ attrs7 := by decide
  cases isLast <;>
    simp [lcStep, goMapLookup_foldl_not_mem _ _ _ _ hp7, goMapLookup, goMapInsert]

theorem lcStep_parent_some (cfg : List (String × String)) (layerID last : String)
    (isLast : Bool) (h : last ≠ "") :
    goMapLookup (lcStep cfg layerID last isLast) "parent" = some (.str last) := by
  have hp7 : "parent" ∉ attrs7 := by decide
  cases isLast <;>
    simp [lcStep, h, goMapLookup_foldl_not_mem _ _ _ _ hp7,
      goMapLookup, goMapInsert]

theorem lcStep_attr_last (cfg : List (String × String)) (layerID last : String)
    (a : String) (ha : a ∈ attrs7) :
    goMapLookup (lcStep cfg layerID last true) a = some (rawOf cfg a) := by
  have hnd : attrs7.Nodup := by decide
  by_cases h : last ≠ "" <;>
    simp [lcStep, h, goMapLookup_foldl_mem _ _ _ _ ha hnd]

theorem lcStep_attr_not_last (cfg : List (String × String)) (layerID last : String)
    (a : String) (ha : a ∈ attrs7) :
    goMapLookup (lcStep cfg layerID last false) a = none := by
  have haid : ¬ ("id" : String) = a := by
    intro h
    subst h
    revert ha
    decide
  have hapar : ¬ ("parent" : String) = a := by
    intro h
    subst h
    revert ha
    decide
  by_cases h : last ≠ "" <;>
    simp [lcStep, h, goMapLookup, goMapInsert, haid, hapar]

theorem reposLookup_insert_self (m : List (String × List (String × String)))
    (name tag v : String) :
    reposLookup (reposInsert m name tag v) name tag = some v := by
  unfold reposInsert reposLookup
  cases hlk : goMapLookup m name with
  | some inner => simp [goMapLookup_insert_self, goMapLookup_insert_self inner tag v]
  | none => simp [goMapLookup_insert_self, goMapLookup]

theorem reposLookup_insert_preserve (m : List (String × List (String × String)))
    (x y v name tag : String) (h : reposLookup m name tag = some v) :
    reposLookup (reposInsert m x y v) name tag = some v := by
  by_cases hn : name = x
  · subst hn
    cases hlk : goMapLookup m name with
    | none => simp [reposLookup, hlk] at h
    | some inner =>
        simp only [reposLookup, hlk, Option.bind] at h
        by_cases ht : tag = y
        · subst ht
          exact reposLookup_insert_self m name tag v
        · simp [reposInsert, hlk, reposLookup, goMapLookup_insert_self,
            goMapLookup_insert_ne inner y tag v ht, h]
  · unfold reposInsert reposLookup
    cases hlk : goMapLookup m x with
    | some inner =>
        rw [goMapLookup_insert_ne m x name _ hn]
        exact h
    | none =>
        rw [goMapLookup_insert_ne m x name _ hn]
        exact h

theorem reposLookup_insert_inv (m : List (String × List (String × String)))
    (x y v name tag w : String)
    (h : reposLookup (reposInsert m x y v) name tag = some w) :
    (name = x ∧ tag = y ∧ w = v) ∨ reposLookup m name tag = some w := by
  by_cases hn : name = x
  · subst hn
    cases hlk : goMapLookup m name with
    | none =>
        unfold reposInsert at h
        rw [hlk] at h
        unfold reposLookup at h
        rw [goMapLookup_insert_self] at h
        simp only [Option.bind] at h
        by_cases ht : tag = y
        · subst ht
          simp [goMapLookup] at h
          exact Or.inl ⟨rfl, rfl, h.symm⟩
        · simp [goMapLookup] at h
          exact absurd h.1 (Ne.symm ht)
    | some inner =>
        unfold reposInsert at h
        rw [hlk] at h
        unfold reposLookup at h
        rw [goMapLookup_insert_self] at h
        simp only [Option.bind] at h
        by_cases ht : tag = y
        · subst ht
          rw [goMapLookup_insert_self] at h
          exact Or.inl ⟨rfl, rfl, (Option.some.inj h).symm⟩
        · rw [goMapLookup_insert_ne inner y tag v ht] at h
          exact Or.inr (by simp [reposLookup, hlk, h])
  · unfold reposInsert at h
    cases hlk : goMapLookup m x with
    | some inner =>
        rw [hlk] at h
        unfold reposLookup at h
        rw [goMapLookup_insert_ne m x name _ hn] at h
        exact Or.inr h
    | none =>
        rw [hlk] at h
        unfold reposLookup at h
        rw [goMapLookup_insert_ne m x name _ hn] at h
        exact Or.inr h

theorem reposFold_preserve (root : String) (tags : List NamedTagged) :
    ∀ (m : List (String × List (String × String))) (name tag : String),
    reposLookup m name tag = some root →
    reposLookup (tags.foldl (fun m rt => reposInsert m rt.name rt.tag root) m) name tag
      = some root := by
  induction tags with
  | nil => intro m name tag h; simpa using h
  | cons x xs ih =>
      intro m name tag h
      simp only [List.foldl_cons]
      exact ih _ _ _ (reposLookup_insert_preserve m x.name x.tag root name tag h)

theorem reposMap_lookup (root : String) (tags : List NamedTagged) :
    ∀ t ∈ tags, reposLookup (reposMap root tags) t.name t.tag = some root := by
  unfold reposMap
  suffices hgen : ∀ (m : List (String × List (String × String))) (t : NamedTagged),
      t ∈ tags →
      reposLookup (tags.foldl (fun m rt => reposInsert m rt.name rt.tag root) m)
        t.name t.tag = some root by
    intro t ht
    exact hgen [] t ht
  induction tags with
  | nil => intro m t ht; simp at ht
  | cons x xs ih =>
      intro m t ht
      simp only [List.foldl_cons]
      rcases List.mem_cons.mp ht with h | h
      · subst h
        exact reposFold_preserve root xs _ _ _ (reposLookup_insert_self m t.name t.tag root)
      · exact ih _ t h

theorem reposMap_lookup_inv (root : String) (tags : List NamedTagged)
    (name tag w : String)
    (h : reposLookup (reposMap root tags) name tag = some w) :
    w = root ∧ ∃ t ∈ tags, t.name = name ∧ t.tag = tag := by
  unfold reposMap at h
  suffices hgen : ∀ (m : List (String × List (String × String))),
      reposLookup (tags.foldl (fun m rt => reposInsert m rt.name rt.tag root) m)
        name tag = some w →
      (w = root ∧ ∃ t ∈ tags, t.name = name ∧ t.tag = tag)
        ∨ reposLookup m name tag = some w by
    rcases hgen [] h with hq | hq
    · exact hq
    · simp [reposLookup, goMapLookup] at hq
  clear h
  induction tags with
  | nil =>
      intro m h
      exact Or.inr h
  | cons x xs ih =>
      intro m h
      simp only [List.foldl_cons] at h
      rcases ih _ h with ⟨hw, t, ht, hnt⟩ | hq
      · exact Or.inl ⟨hw, t, List.mem_cons_of_mem x ht, hnt⟩
      · rcases reposLookup_insert_inv m x.name x.tag root name tag w hq with ⟨h1, h2, h3⟩ | hq'
        · exact Or.inl ⟨h3, x, List.mem_cons_self x xs, h1.symm, h2.symm⟩
        · exact Or.inr hq'

theorem createRepositoriesFile_go (st : WriterState) (root : String)
    (tags : List NamedTagged) :
    createRepositoriesFile goFileInfoHeader st root tags
      = .ok { st with entries := st.entries ++
          [.hdr (mkRegHeader legacyRepositoriesFileName
              (glen (.jsonRepos (reposMap root tags)))),
            .dat (.jsonRepos (reposMap root tags))] } := by
  unfold createRepositoriesFile
  rw [sendBytes_go]

theorem createManifest_go (st : WriterState) (cd : String) (paths : List String)
    (tags : List NamedTagged) :
    createManifest goFileInfoHeader st cd paths tags
      = .ok { st with entries := st.entries ++
          [.hdr (mkRegHeader manifestFileName (glen (.jsonManifestItems
              [{ config := configPath cd
                 repoTags := tags.map fun tag => tag.name ++ ":" ++ tag.tag
                 layers := paths
                 parent := ""
                 layerSources := none }]))),
            .dat (.jsonManifestItems
              [{ config := configPath cd
                 repoTags := tags.map fun tag => tag.name ++ ":" ++ tag.tag
                 layers := paths
                 parent := ""
                 layerSources := none }])] } := by
  simp only [createManifest]
  rw [sendBytes_go]

/-- C3: `tryReusingBlob(info)` errors when `info.Digest` is empty; on a digest
previously recorded via `recordBlob` it returns `(true, BlobInfo with the
queried digest and the recorded size, nil)`; otherwise it returns
`(false, empty BlobInfo, nil)` with no error. -/
theorem tryReusingBlob_contract (w : WriterState) (info : BlobInfo) (d : String)
    (sz q : Int) :
    (info.digest = "" →
      tryReusingBlob w info = .error "Can not check for a blob with unknown digest")
    ∧ (d ≠ "" →
      tryReusingBlob (recordBlob w { digest := d, size := sz }) { digest := d, size := q }
        = .ok (true, { digest := d, size := sz }))
    ∧ (info.digest ≠ "" → goMapLookup w.blobs info.digest = none →
      tryReusingBlob w info = .ok (false, BlobInfo.empty)) := by
  refine ⟨?_, ?_, ?_⟩
  · intro h
    simp [tryReusingBlob, h]
  · intro h
    simp [tryReusingBlob, recordBlob, h, goMapLookup_insert_self]
  · intro h1 h2
    simp [tryReusingBlob, h1, h2]

/-- Witness for C3 at concrete inputs. -/
theorem tryReusingBlob_contract_witness :
    tryReusingBlob ⟨[], []⟩ ⟨"", 0⟩ = .error "Can not check for a blob with unknown digest"
    ∧ tryReusingBlob (recordBlob ⟨[], []⟩ ⟨"sha256:aa", 5⟩) ⟨"sha256:aa", 7⟩
        = .ok (true, ⟨"sha256:aa", 5⟩)
    ∧ tryReusingBlob ⟨[], []⟩ ⟨"sha256:bb", 3⟩ = .ok (false, BlobInfo.empty) :=
  ⟨(tryReusingBlob_contract ⟨[], []⟩ ⟨"", 0⟩ "x" 0 0).1 rfl,
   (tryReusingBlob_contract ⟨[], []⟩ ⟨"", 0⟩ "sha256:aa" 5 7).2.1 (by decide),
   (tryReusingBlob_contract ⟨[], []⟩ ⟨"sha256:bb", 3⟩ "x" 0 0).2.2 (by decide) rfl⟩

/-- C4: `createManifest` writes at the fixed path `manifest.json` a JSON array
of exactly one item with Config `hex(configDigest) + ".json"`, RepoTags
`name + ":" + tag` in input order, Layers the supplied paths, empty Parent,
and no LayerSources. -/
theorem createManifest_contract (st : WriterState) (cd : String)
    (layerPaths : List String) (tags : List NamedTagged) :
    manifestFileName = "manifest.json"
    ∧ createManifest goFileInfoHeader st cd layerPaths tags
      = .ok { st with entries := st.entries ++
          [.hdr (mkRegHeader manifestFileName (glen (.jsonManifestItems
              [{ config := digestHex cd ++ ".json",
                 repoTags := tags.map fun t => t.name ++ ":" ++ t.tag,
                 layers := layerPaths, parent := "", layerSources := none }]))),
            .dat (.jsonManifestItems
              [{ config := digestHex cd ++ ".json",
                 repoTags := tags.map fun t => t.name ++ ":" ++ t.tag,
                 layers := layerPaths, parent := "", layerSources := none }])] } :=
  ⟨rfl, createManifest_go st cd layerPaths tags⟩

/-- C5: `sendFile` returns a size-mismatch error whenever the bytes copied
from the stream differ from `expectedSize` (the payload is never silently
truncated or padded), and on a nil-error return exactly `expectedSize` bytes
follow the header (the whole stream, whose length equals `expectedSize`). -/
theorem sendFile_size_contract (st : WriterState) (p : String) (es : Int)
    (stream : GoBytes) :
    (glen stream ≠ es →
      sendFile goFileInfoHeader st p es stream
        = .error (sizeMismatchMsg p es (glen stream)))
    ∧ ∀ st', sendFile goFileInfoHeader st p es stream = .ok st' →
        glen stream = es
        ∧ st'.entries = st.entries ++ [.hdr (mkRegHeader p es), .dat stream] := by
  constructor
  · intro h
    rw [sendFile_go, if_pos h]
  · intro st' h
    rw [sendFile_go] at h
    by_cases hg : glen stream ≠ es
    · rw [if_pos hg] at h
      simp at h
    · rw [if_neg hg] at h
      simp only [Except.ok.injEq] at h
      exact ⟨not_not.mp hg, by rw [← h]⟩

/-- Witness for C5: a stream of 3 bytes against declared size 5 fails with the
size-mismatch error; against declared size 3 it succeeds with the payload. -/
theorem sendFile_size_contract_witness :
    sendFile goFileInfoHeader ⟨[], []⟩ "p" 5 (GoBytes.raw "abc")
      = .error (sizeMismatchMsg "p" 5 (glen (GoBytes.raw "abc")))
    ∧ glen (GoBytes.raw "abc") = 3
    ∧ (⟨[.hdr (mkRegHeader "p" 3), .dat (GoBytes.raw "abc")], []⟩ : WriterState).entries
        = (⟨[], []⟩ : WriterState).entries ++ [.hdr (mkRegHeader "p" 3), .dat (GoBytes.raw "abc")] := by
  have h1 := (sendFile_size_contract ⟨[], []⟩ "p" 5 (GoBytes.raw "abc")).1 (by decide)
  have h2 := (sendFile_size_contract ⟨[], []⟩ "p" 3 (GoBytes.raw "abc")).2
    ⟨[.hdr (mkRegHeader "p" 3), .dat (GoBytes.raw "abc")], []⟩ (by rfl)
  exact ⟨h1, h2.1, h2.2⟩

/-- C6: every tar entry the writer emits has its modification time fixed at
the Unix epoch; regular-file entries carry mode exactly 0444 and symlink
entries carry the symlink type flag and size 0, independent of inputs.  All
entries are emitted through `sendSymlink`/`sendFile` (`sendBytes`), whose
emitted headers are exactly `mkSymHeader`/`mkRegHeader`. -/
theorem deterministic_headers (st : WriterState) (p t : String) (es : Int)
    (b stream : GoBytes) :
    sendSymlink goFileInfoHeader st p t
      = .ok { st with entries := st.entries ++ [.hdr (mkSymHeader p t)] }
    ∧ sendBytes goFileInfoHeader st p b
      = .ok { st with entries := st.entries ++ [.hdr (mkRegHeader p (glen b)), .dat b] }
    ∧ (∀ st', sendFile goFileInfoHeader st p es stream = .ok st' →
        st'.entries = st.entries ++ [.hdr (mkRegHeader p es), .dat stream])
    ∧ (mkSymHeader p t).modTimeSec = 0 ∧ (mkSymHeader p t).typeflag = .symlink
    ∧ (mkSymHeader p t).size = 0
    ∧ (mkRegHeader p es).modTimeSec = 0 ∧ (mkRegHeader p es).typeflag = .reg
    ∧ (mkRegHeader p es).mode = 0o444 := by
  refine ⟨sendSymlink_go st p t, sendBytes_go st p b, ?_, rfl, rfl, rfl, rfl, rfl, rfl⟩
  intro st' h
  rw [sendFile_go] at h
  by_cases hg : glen stream ≠ es
  · rw [if_pos hg] at h
    simp at h
  · rw [if_neg hg] at h
    simp only [Except.ok.injEq] at h
    rw [← h]

/-- Witness for C6 at concrete inputs. -/
theorem deterministic_headers_witness :
    sendSymlink goFileInfoHeader ⟨[], []⟩ "a" "b"
      = .ok ⟨[.hdr (mkSymHeader "a" "b")], []⟩
    ∧ (mkSymHeader "a" "b").modTimeSec = 0 ∧ (mkSymHeader "a" "b").typeflag = .symlink
    ∧ (mkSymHeader "a" "b").size = 0
    ∧ (mkRegHeader "a" 3).modTimeSec = 0 ∧ (mkRegHeader "a" 3).typeflag = .reg
    ∧ (mkRegHeader "a" 3).mode = 0o444 := by
  obtain ⟨h1, -, -, h4, h5, h6, h7, h8, h9⟩ :=
    deterministic_headers ⟨[], []⟩ "a" "b" 3 (GoBytes.raw "x") (GoBytes.raw "y")
  exact ⟨by simpa using h1, h4, h5, h6, h7, h8, h9⟩

/-- C7: the repositories file is written at the fixed top-level path
`repositories` as a JSON object whose nested map sends each supplied tag's
repository name and tag to the legacy root-layer ID, and contains nothing
else (so a later write for the same name:tag pair wins). -/
theorem createRepositoriesFile_contract (st : WriterState) (root : String)
    (tags : List NamedTagged) :
    legacyRepositoriesFileName = "repositories"
    ∧ createRepositoriesFile goFileInfoHeader st root tags
        = .ok { st with entries := st.entries ++
            [.hdr (mkRegHeader legacyRepositoriesFileName
                (glen (.jsonRepos (reposMap root tags)))),
              .dat (.jsonRepos (reposMap root tags))] }
    ∧ (∀ t ∈ tags, reposLookup (reposMap root tags) t.name t.tag = some root)
    ∧ (∀ name tag w, reposLookup (reposMap root tags) name tag = some w →
        w = root ∧ ∃ t ∈ tags, t.name = name ∧ t.tag = tag) :=
  ⟨rfl, createRepositoriesFile_go st root tags, reposMap_lookup root tags,
   fun name tag w h => reposMap_lookup_inv root tags name tag w h⟩

/-- Witness for C7 at a concrete tag list. -/
theorem createRepositoriesFile_contract_witness :
    createRepositoriesFile goFileInfoHeader ⟨[], []⟩ "root" [⟨"n", "t"⟩]
      = .ok ⟨[.hdr (mkRegHeader "repositories"
              (glen (.jsonRepos (reposMap "root" [⟨"n", "t"⟩])))),
            .dat (.jsonRepos (reposMap "root" [⟨"n", "t"⟩]))], []⟩
    ∧ reposLookup (reposMap "root" [⟨"n", "t"⟩]) "n" "t" = some "root" := by
  obtain ⟨-, h2, h3, -⟩ := createRepositoriesFile_contract ⟨[], []⟩ "root" [⟨"n", "t"⟩]
  exact ⟨by simpa using h2, h3 ⟨"n", "t"⟩ (by simp)⟩

/-- C9: when `tar.FileInfoHeader` fails inside `sendSymlink` or `sendFile`,
the function returns `nil` with the state unchanged (no tar entry written):
the error is silently discarded rather than propagated. -/
theorem header_error_swallowed (fih : TarFI → String → Except GoError TarHeader)
    (st : WriterState) (p t : String) (es : Int) (stream : GoBytes) (e e' : GoError)
    (h1 : fih { path := p, size := 0, isSymlink := true } t = .error e)
    (h2 : fih { path := p, size := es, isSymlink := false } "" = .error e') :
    sendSymlink fih st p t = .ok st ∧ sendFile fih st p es stream = .ok st := by
  constructor
  · unfold sendSymlink
    rw [h1]
  · unfold sendFile
    rw [h2]

/-- Witness for C9 with an always-failing header constructor. -/
theorem header_error_swallowed_witness :
    sendSymlink (fun _ _ => .error "boom") ⟨[], []⟩ "p" "t" = .ok ⟨[], []⟩
    ∧ sendFile (fun _ _ => .error "boom") ⟨[], []⟩ "p" 3 (GoBytes.raw "x") = .ok ⟨[], []⟩ :=
  ⟨(header_error_swallowed (fun _ _ => .error "boom") ⟨[], []⟩ "p" "t" 3
      (GoBytes.raw "x") "boom" "boom" rfl rfl).1,
   (header_error_swallowed (fun _ _ => .error "boom") ⟨[], []⟩ "p" "t" 3
      (GoBytes.raw "x") "boom" "boom" rfl rfl).2⟩

/-- C10: on an empty layer-descriptor sequence, `writeLegacyLayerMetadata`
returns nil `layerPaths`, empty `lastLayerID` and no error, writes nothing,
and never inspects the configuration bytes (even unparsable ones); a
subsequent `createRepositoriesFile` maps every supplied tag to the empty
string. -/
theorem writeLegacy_empty_contract (sha : String → String)
    (fih : TarFI → String → Except GoError TarHeader)
    (st : WriterState) (configBytes : ConfigBytes) (tags : List NamedTagged) :
    writeLegacyLayerMetadata sha fih st [] configBytes = .ok (st, ([] : List String), "")
    ∧ createRepositoriesFile goFileInfoHeader st "" tags
        = .ok { st with entries := st.entries ++
            [.hdr (mkRegHeader legacyRepositoriesFileName
                (glen (.jsonRepos (reposMap "" tags)))),
              .dat (.jsonRepos (reposMap "" tags))] }
    ∧ ∀ t ∈ tags, reposLookup (reposMap "" tags) t.name t.tag = some "" :=
  ⟨rfl, createRepositoriesFile_go st "" tags, reposMap_lookup "" tags⟩

/-- Witness for C10: empty layers with unparsable config bytes still succeed,
and the repositories file maps the tag to the empty string. -/
theorem writeLegacy_empty_contract_witness :
    writeLegacyLayerMetadata (fun s => s) goFileInfoHeader ⟨[], []⟩ [] none
      = .ok (⟨[], []⟩, ([] : List String), "")
    ∧ reposLookup (reposMap "" [⟨"n", "t"⟩]) "n" "t" = some "" := by
  obtain ⟨h1, -, h3⟩ :=
    writeLegacy_empty_contract (fun s => s) goFileInfoHeader ⟨[], []⟩ none [⟨"n", "t"⟩]
  exact ⟨h1, h3 ⟨"n", "t"⟩ (by simp)⟩

/-- C8: in any layer-digest sequence where the digest at a later position `i`
repeats the digest at position 0 (as in `[A, B, A]`), the chain ID after
processing position `i` differs from the chain ID after position 0, because
it hashes the differing preceding history (under the no-fixed-point property
of the canonical hash this computation relies on), while the chain ID at
position 0 is always exactly the first digest. -/
theorem chainID_position_dependent (sha : String → String) (ds : List String)
    (hne : ∀ d ∈ ds, d ≠ "")
    (hfix : ∀ s t, canonicalFromString sha (s ++ " " ++ t) ≠ t)
    (i : Nat) (h0 : 0 < i) (hi : i < ds.length)
    (hrep : ds.getD i "" = ds.getD 0 "") :
    chainPre sha ds (i + 1) ≠ chainPre sha ds 1
    ∧ chainPre sha ds 1 = ds.getD 0 "" := by
  constructor
  · obtain ⟨n, rfl⟩ : ∃ n, i = n + 1 := ⟨i - 1, by omega⟩
    have hpre : chainPre sha ds (n + 1) ≠ "" :=
      chainPre_ne_empty sha ds hne n (by omega)
    rw [chainPre_succ_hash sha ds n hpre, chainPre_one, ← hrep]
    exact hfix _ _
  · exact chainPre_one sha ds

/-- Witness for C8 on `[A, B, A]` with an injective no-fixed-point hash. -/
theorem chainID_position_dependent_witness :
    chainPre (fun s => s) ["sha256:aa", "sha256:bb", "sha256:aa"] 3
      ≠ chainPre (fun s => s) ["sha256:aa", "sha256:bb", "sha256:aa"] 1
    ∧ chainPre (fun s => s) ["sha256:aa", "sha256:bb", "sha256:aa"] 1 = "sha256:aa" := by
  have h := chainID_position_dependent (fun s => s)
    ["sha256:aa", "sha256:bb", "sha256:aa"] (by decide)
    (fun s t => by
      unfold canonicalFromString
      exact sha256_prefixed_ne_suffix s t)
    2 (by decide) (by decide) (by decide)
  exact ⟨by simpa using h.1, by simpa using h.2⟩

/-- C1: for a non-empty descriptor sequence (with valid, non-empty digests as
§4.2 of the spec assumes), the legacy layer ID carried in the `id` field of
layer `i`'s legacy `json` config is the hex encoding of the chain ID given by
the spec recursion `chainIDSpec`: the digest itself at position 0, and the
canonical hash of `previousChainID ++ " " ++ digest` afterwards. -/
theorem writeLegacy_chainID_matches_spec (sha : String → String)
    (cfg : List (String × String)) (st : WriterState)
    (ld : List Schema2Descriptor) (hne : ld ≠ [])
    (hd : ∀ l ∈ ld, l.digest ≠ "") :
    ∃ st' paths lastID,
      writeLegacyLayerMetadata sha goFileInfoHeader st ld (some cfg)
        = .ok (st', paths, lastID)
      ∧ ∃ Δ, st'.entries = st.entries ++ Δ
        ∧ ∀ i, i < ld.length →
            TarRecord.dat (.jsonObj (lcAt sha cfg (ld.map Schema2Descriptor.digest) i)) ∈ Δ
            ∧ goMapLookup (lcAt sha cfg (ld.map Schema2Descriptor.digest) i) "id"
                = some (.str (digestHex
                    (chainIDSpec sha (ld.map Schema2Descriptor.digest) i))) := by
  refine ⟨_, _, _, writeLegacy_run sha cfg st ld, _, rfl, ?_⟩
  intro i hi
  have hdds : ∀ d ∈ ld.map Schema2Descriptor.digest, d ≠ "" := by
    intro d hdm
    obtain ⟨l, hl, rfl⟩ := List.mem_map.mp hdm
    exact hd l hl
  have hids : i < (ld.map Schema2Descriptor.digest).length := by simpa using hi
  constructor
  · apply List.mem_flatten.mpr
    refine ⟨blockAt sha cfg (ld.map Schema2Descriptor.digest) i, ?_, ?_⟩
    · exact List.mem_map_of_mem _ (List.mem_range.mpr hi)
    · simp [blockAt, blockStep, lcAt]
  · rw [lcAt, lcStep_id]
    unfold lidAt
    rw [chainPre_eq_spec sha _ hdds i hids]

/-- Witness for C1 on a concrete two-layer image. -/
theorem writeLegacy_chainID_matches_spec_witness :
    ([⟨"mt", 1, "sha256:aa"⟩, ⟨"mt", 2, "sha256:bb"⟩] : List Schema2Descriptor) ≠ []
    ∧ (∀ l ∈ ([⟨"mt", 1, "sha256:aa"⟩, ⟨"mt", 2, "sha256:bb"⟩] : List Schema2Descriptor),
        l.digest ≠ "")
    ∧ ∃ st' paths lastID,
      writeLegacyLayerMetadata (fun s => s) goFileInfoHeader ⟨[], []⟩
          [⟨"mt", 1, "sha256:aa"⟩, ⟨"mt", 2, "sha256:bb"⟩] (some [("os", "\"linux\"")])
        = .ok (st', paths, lastID)
      ∧ ∃ Δ, st'.entries = (⟨[], []⟩ : WriterState).entries ++ Δ
        ∧ ∀ i, i < ([⟨"mt", 1, "sha256:aa"⟩, ⟨"mt", 2, "sha256:bb"⟩] : List Schema2Descriptor).length →
            TarRecord.dat (.jsonObj (lcAt (fun s => s) [("os", "\"linux\"")]
                (([⟨"mt", 1, "sha256:aa"⟩, ⟨"mt", 2, "sha256:bb"⟩] : List Schema2Descriptor).map
                  Schema2Descriptor.digest) i)) ∈ Δ
            ∧ goMapLookup (lcAt (fun s => s) [("os", "\"linux\"")]
                (([⟨"mt", 1, "sha256:aa"⟩, ⟨"mt", 2, "sha256:bb"⟩] : List Schema2Descriptor).map
                  Schema2Descriptor.digest) i) "id"
                = some (.str (digestHex (chainIDSpec (fun s => s)
                    (([⟨"mt", 1, "sha256:aa"⟩, ⟨"mt", 2, "sha256:bb"⟩] : List Schema2Descriptor).map
                      Schema2Descriptor.digest) i))) :=
  ⟨by decide, by decide,
   writeLegacy_chainID_matches_spec (fun s => s) [("os", "\"linux\"")] ⟨[], []⟩
     [⟨"mt", 1, "sha256:aa"⟩, ⟨"mt", 2, "sha256:bb"⟩] (by decide) (by decide)⟩

/-- C2: for every layer `i` (valid non-empty digests, parseable config with
the seven attributes present), the archive receives under the layer's legacy
ID directory: the `layer.tar` symlink whose target is `..` joined with the
physical path `hex(digest) ++ ".tar"`, the `VERSION` file with content
exactly `1.0`, and the `json` object which always maps `id` to the legacy
layer ID, maps `parent` to the previous layer's legacy ID exactly when
`i > 0`, and carries the seven configuration attributes verbatim exactly when
`i` is the last index. -/
theorem writeLegacy_layer_entries (sha : String → String)
    (cfg : List (String × String)) (st : WriterState)
    (ld : List Schema2Descriptor) (hne : ld ≠ [])
    (hd : ∀ l ∈ ld, l.digest ≠ "" ∧ digestHex l.digest ≠ "")
    (hsha : ∀ s, sha s ≠ "")
    (h7 : ∀ a ∈ attrs7, ∃ r, goMapLookup cfg a = some r) :
    ∃ st' paths lastID,
      writeLegacyLayerMetadata sha goFileInfoHeader st ld (some cfg)
        = .ok (st', paths, lastID)
      ∧ ∃ Δ, st'.entries = st.entries ++ Δ
        ∧ ∀ i, i < ld.length →
            ([ .hdr (mkSymHeader
                  (joinP (lidAt sha (ld.map Schema2Descriptor.digest) i) legacyLayerFileName)
                  (joinP ".." (physicalLayerPath
                    ((ld.map Schema2Descriptor.digest).getD i "")))),
               .hdr (mkRegHeader
                  (joinP (lidAt sha (ld.map Schema2Descriptor.digest) i) legacyVersionFileName)
                  (glen (.raw "1.0"))),
               .dat (.raw "1.0"),
               .hdr (mkRegHeader
                  (joinP (lidAt sha (ld.map Schema2Descriptor.digest) i) legacyConfigFileName)
                  (glen (.jsonObj (lcAt sha cfg (ld.map Schema2Descriptor.digest) i)))),
               .dat (.jsonObj (lcAt sha cfg (ld.map Schema2Descriptor.digest) i))
             ]).IsInfix Δ
            ∧ goMapLookup (lcAt sha cfg (ld.map Schema2Descriptor.digest) i) "id"
                = some (.str (lidAt sha (ld.map Schema2Descriptor.digest) i))
            ∧ (i = 0 →
                goMapLookup (lcAt sha cfg (ld.map Schema2Descriptor.digest) i) "parent"
                  = none)
            ∧ (∀ j, i = j + 1 →
                goMapLookup (lcAt sha cfg (ld.map Schema2Descriptor.digest) i) "parent"
                  = some (.str (lidAt sha (ld.map Schema2Descriptor.digest) j)))
            ∧ (i = ld.length - 1 → ∀ a ∈ attrs7, ∃ r,
                goMapLookup cfg a = some r
                ∧ goMapLookup (lcAt sha cfg (ld.map Schema2Descriptor.digest) i) a
                    = some (.raw r))
            ∧ (i ≠ ld.length - 1 → ∀ a ∈ attrs7,
                goMapLookup (lcAt sha cfg (ld.map Schema2Descriptor.digest) i) a
                  = none) := by
  refine ⟨_, _, _, writeLegacy_run sha cfg st ld, _, rfl, ?_⟩
  intro i hi
  have hdds : ∀ d ∈ ld.map Schema2Descriptor.digest, d ≠ "" := by
    intro d hdm
    obtain ⟨l, hl, rfl⟩ := List.mem_map.mp hdm
    exact (hd l hl).1
  have hhex : ∀ d ∈ ld.map Schema2Descriptor.digest, digestHex d ≠ "" := by
    intro d hdm
    obtain ⟨l, hl, rfl⟩ := List.mem_map.mp hdm
    exact (hd l hl).2
  have hlen : (ld.map Schema2Descriptor.digest).length = ld.length := by simp
  have hids : i < (ld.map Schema2Descriptor.digest).length := by simpa using hi
  refine ⟨?_, ?_, ?_, ?_, ?_, ?_⟩
  · have hb : blockAt sha cfg (ld.map Schema2Descriptor.digest) i
        = [ .hdr (mkSymHeader
              (joinP (lidAt sha (ld.map Schema2Descriptor.digest) i) legacyLayerFileName)
              (joinP ".." (physicalLayerPath
                ((ld.map Schema2Descriptor.digest).getD i "")))),
            .hdr (mkRegHeader
              (joinP (lidAt sha (ld.map Schema2Descriptor.digest) i) legacyVersionFileName)
              (glen (.raw "1.0"))),
            .dat (.raw "1.0"),
            .hdr (mkRegHeader
              (joinP (lidAt sha (ld.map Schema2Descriptor.digest) i) legacyConfigFileName)
              (glen (.jsonObj (lcAt sha cfg (ld.map Schema2Descriptor.digest) i)))),
            .dat (.jsonObj (lcAt sha cfg (ld.map Schema2Descriptor.digest) i)) ] := rfl
    rw [← hb]
    exact List.infix_of_mem_flatten (List.mem_map_of_mem _ (List.mem_range.mpr hi))
  · rw [lcAt, lcStep_id]
  · intro h0
    subst h0
    rw [lcAt]
    rw [show lidPre sha (ld.map Schema2Descriptor.digest) 0 = "" from rfl]
    exact lcStep_parent_none cfg _ _
  · intro j hj
    subst hj
    have hjlt : j < (ld.map Schema2Descriptor.digest).length := by omega
    have hpe : lidAt sha (ld.map Schema2Descriptor.digest) j ≠ "" :=
      lidAt_ne_empty sha _ hdds hhex hsha j hjlt
    rw [lcAt]
    rw [show lidPre sha (ld.map Schema2Descriptor.digest) (j + 1)
        = lidAt sha (ld.map Schema2Descriptor.digest) j from rfl]
    exact lcStep_parent_some cfg _ _ _ hpe
  · intro hl a ha
    obtain ⟨r, hr⟩ := h7 a ha
    refine ⟨r, hr, ?_⟩
    have hdec : decide (i = (ld.map Schema2Descriptor.digest).length - 1) = true :=
      decide_eq_true (by rw [hlen]; exact hl)
    rw [lcAt, hdec, lcStep_attr_last cfg _ _ a ha]
    unfold rawOf
    rw [hr]
  · intro hnl a ha
    have hdec : decide (i = (ld.map Schema2Descriptor.digest).length - 1) = false :=
      decide_eq_false (by rw [hlen]; exact hnl)
    rw [lcAt, hdec]
    exact lcStep_attr_not_last cfg _ _ a ha

set_option maxRecDepth 4000

/-- Witness for C2 on a concrete two-layer image whose configuration carries
all seven attributes. -/
theorem writeLegacy_layer_entries_witness :
    (wDescs ≠ [] ∧ (∀ l ∈ wDescs, l.digest ≠ "" ∧ digestHex l.digest ≠ "")
      ∧ (∀ s, wSha s ≠ "") ∧ (∀ a ∈ attrs7, ∃ r, goMapLookup wCfg a = some r))
    ∧ (∃ st' paths lastID,
      writeLegacyLayerMetadata wSha goFileInfoHeader ⟨[], []⟩ wDescs (some wCfg)
        = .ok (st', paths, lastID)
      ∧ ∃ Δ, st'.entries = (⟨[], []⟩ : WriterState).entries ++ Δ
        ∧ ∀ i, i < wDescs.length →
            ([ .hdr (mkSymHeader
                  (joinP (lidAt wSha (wDescs.map Schema2Descriptor.digest) i) legacyLayerFileName)
                  (joinP ".." (physicalLayerPath
                    ((wDescs.map Schema2Descriptor.digest).getD i "")))),
               .hdr (mkRegHeader
                  (joinP (lidAt wSha (wDescs.map Schema2Descriptor.digest) i) legacyVersionFileName)
                  (glen (.raw "1.0"))),
               .dat (.raw "1.0"),
               .hdr (mkRegHeader
                  (joinP (lidAt wSha (wDescs.map Schema2Descriptor.digest) i) legacyConfigFileName)
                  (glen (.jsonObj (lcAt wSha wCfg (wDescs.map Schema2Descriptor.digest) i)))),
               .dat (.jsonObj (lcAt wSha wCfg (wDescs.map Schema2Descriptor.digest) i))
             ]).IsInfix Δ
            ∧ goMapLookup (lcAt wSha wCfg (wDescs.map Schema2Descriptor.digest) i) "id"
                = some (.str (lidAt wSha (wDescs.map Schema2Descriptor.digest) i))
            ∧ (i = 0 →
                goMapLookup (lcAt wSha wCfg (wDescs.map Schema2Descriptor.digest) i) "parent"
                  = none)
            ∧ (∀ j, i = j + 1 →
                goMapLookup (lcAt wSha wCfg (wDescs.map Schema2Descriptor.digest) i) "parent"
                  = some (.str (lidAt wSha (wDescs.map Schema2Descriptor.digest) j)))
            ∧ (i = wDescs.length - 1 → ∀ a ∈ attrs7, ∃ r,
                goMapLookup wCfg a = some r
                ∧ goMapLookup (lcAt wSha wCfg (wDescs.map Schema2Descriptor.digest) i) a
                    = some (.raw r))
            ∧ (i ≠ wDescs.length - 1 → ∀ a ∈ attrs7,
                goMapLookup (lcAt wSha wCfg (wDescs.map Schema2Descriptor.digest) i) a
                  = none)) :=
  ⟨⟨by decide, by decide, fun _ => by simp [wSha],
    by intro a ha; fin_cases ha <;> exact ⟨_, rfl⟩⟩,
   writeLegacy_layer_entries wSha wCfg ⟨[], []⟩ wDescs (by decide) (by decide)
     (fun _ => by simp [wSha]) (by intro a ha; fin_cases ha <;> exact ⟨_, rfl⟩)⟩
